import Mathlib

/-!
# Verification of the QingStor Django storage backend

Shallow embedding of `storages/backends/qingstor.py`: the path
normalization helpers (`_clean_name`, `_normalize_name`), the
`QingStorFile` buffered handle (`write`, `read`, `close`, `size`), and the
`QingStorStorage` operations (`_open`, `_save`, `size`, `url`) over an
explicit remote-bucket state.  Strings are modelled as `List Char`, byte
strings as `List Nat`.
-/

/-- Strings of the Python source, modelled as lists of characters. -/
abbrev Str := List Char

/-- Byte strings (Python `bytes`), modelled as lists of naturals. -/
abbrev Bytes := List Nat

/-- Coerce a Lean string literal into the `Str` model. -/
def str (s : String) : Str := s.data

/-- Python exceptions raised by the modelled code paths. -/
inductive PyErr where
  /-- `SuspiciousOperation` raised by `_normalize_name`. -/
  | suspiciousOperation
  /-- `AttributeError` raised by `QingStorFile.write` in read-only mode. -/
  | attributeError
  /-- `TypeError` raised by Python call-argument binding. -/
  | typeError
  /-- No remote object matches (the `IndexError` of `size`, and a failed
  `get_object`). -/
  | notFound
  /-- `ValueError`: I/O operation on a closed `BytesIO` buffer. -/
  | valueError
  /-- `DjangoUnicodeDecodeError` from `force_text` on invalid UTF-8. -/
  | decodeError
  deriving DecidableEq, Repr

instance {e a : Type} [DecidableEq e] [DecidableEq a] :
    DecidableEq (Except e a) := fun x y =>
  match x, y with
  | .error u, .error v =>
    if h : u = v then .isTrue (h ▸ rfl)
    else .isFalse (fun hc => h (Except.error.inj hc))
  | .error _, .ok _ => .isFalse (fun hc => Except.noConfusion hc)
  | .ok _, .error _ => .isFalse (fun hc => Except.noConfusion hc)
  | .ok u, .ok v =>
    if h : u = v then .isTrue (h ▸ rfl)
    else .isFalse (fun hc => h (Except.ok.inj hc))

/-- `needle.isPrefixOf hay` as an explicit recursion on character lists. -/
def listStarts : Str → Str → Bool
  | [], _ => true
  | _ :: _, [] => false
  | p :: ps, c :: cs => p = c && listStarts ps cs

/-- Python `s.split('/')`: always non-empty, keeps empty components. -/
def splitSlash : Str → List Str
  | [] => [[]]
  | c :: rest =>
    if c = '/' then [] :: splitSlash rest
    else
      match splitSlash rest with
      | h :: t => (c :: h) :: t
      | [] => [[c]]

/-- Python `'/'.join(parts)`. -/
def joinSlash : List Str → Str
  | [] => []
  | [p] => p
  | p :: q :: rest => p ++ '/' :: joinSlash (q :: rest)

/-- Python `s.rstrip('/')`. -/
def rstripSlash (s : Str) : Str :=
  (s.reverse.dropWhile (fun c => c = '/')).reverse

/-- Python `s.lstrip('/')`. -/
def lstripSlash (s : Str) : Str :=
  s.dropWhile (fun c => c = '/')

/-- `posixpath.normpath`: POSIX lexical normalization — drops empty and `.`
components, cancels `..` against a preceding real component, keeps leading
`..` on relative paths, and preserves the number (1 or 2) of leading
slashes. -/
def normpath (path : Str) : Str :=
  if path = [] then ['.']
  else
    let initSl : Nat :=
      if listStarts (str "/") path then
        if listStarts (str "//") path ∧ ¬ listStarts (str "///") path then 2
        else 1
      else 0
    let newComps := (splitSlash path).foldl (fun acc comp =>
      if comp = [] ∨ comp = ['.'] then acc
      else if comp ≠ ['.', '.'] ∨ (initSl = 0 ∧ acc = []) ∨
          acc.getLast? = some ['.', '.'] then acc ++ [comp]
      else if acc ≠ [] then acc.dropLast
      else acc) []
    let p := List.replicate initSl '/' ++ joinSlash newComps
    if p = [] then ['.'] else p

/-- `_clean_name` (qingstor.py lines 127-133): `posixpath.normpath(name)`,
backslashes replaced by slashes, restoring a trailing slash the input had. -/
def _clean_name (name : Str) : Str :=
  let clean := (normpath name).map (fun c => if c = '\\' then '/' else c)
  if name.getLast? = some '/' ∧ clean.getLast? ≠ some '/' then clean ++ ['/']
  else clean

/-- Interior part of CPython `urljoin`'s segment filter: drop empty
segments but keep the final one. -/
def interiorFilter : List Str → List Str
  | [] => []
  | [b] => [b]
  | x :: y :: ys =>
    if x = [] then interiorFilter (y :: ys) else x :: interiorFilter (y :: ys)

/-- The segment filter of CPython `urljoin`: `segments[1:-1] =
filter(None, segments[1:-1])` — drops empty interior segments, keeping the
first and last. -/
def filterInterior : List Str → List Str
  | [] => []
  | a :: rest => a :: interiorFilter rest

/-- One step of CPython `urljoin`'s segment resolver: `..` pops the last
resolved segment (silently at the bottom), `.` is skipped, everything else
is appended. -/
def resolveStep (acc : List Str) (seg : Str) : List Str :=
  if seg = ['.', '.'] then acc.dropLast
  else if seg = ['.'] then acc
  else acc ++ [seg]

/-- The segment resolver loop of CPython `urljoin` as a fold. -/
def resolveSegs (segs : List Str) : List Str :=
  segs.foldl resolveStep []

/-- The result of CPython `urlparse`: scheme, authority, path, params,
query, fragment. -/
structure UrlParts where
  scheme : Str
  netloc : Str
  path : Str
  params : Str
  query : Str
  fragment : Str
  deriving DecidableEq, Repr

/-- CPython `scheme_chars`: ASCII letters, digits, `+`, `-`, `.`. -/
def isSchemeChar (c : Char) : Bool :=
  c.isAlpha || c.isDigit || c = '+' || c = '-' || c = '.'

/-- The scheme-detection step of CPython `urlsplit` (3.9+): when the text
before the first `:` is nonempty, starts with an ASCII letter and consists
of scheme characters, it is the (lowercased) scheme and the rest follows
the colon; otherwise no scheme is split off. -/
def splitScheme (url : Str) : Str × Str :=
  if ':' ∈ url then
    let cand := url.takeWhile (fun c => ¬ c = ':')
    if cand ≠ [] ∧ (cand.take 1).all Char.isAlpha = true ∧
        cand.all isSchemeChar = true then
      (cand.map Char.toLower, (url.dropWhile (fun c => ¬ c = ':')).drop 1)
    else ([], url)
  else ([], url)

/-- Python `url.split(ch, 1)`: (before the first `ch`, after it); when
`ch` does not occur, (whole string, empty). -/
def splitTail (ch : Char) (url : Str) : Str × Str :=
  (url.takeWhile (fun c => ¬ c = ch),
    (url.dropWhile (fun c => ¬ c = ch)).drop 1)

/-- CPython `_splitnetloc`: the authority runs up to the first `/`, `?` or
`#`. -/
def splitNetloc (url : Str) : Str × Str :=
  let netloc := url.takeWhile (fun c => ¬ (c = '/' ∨ c = '?' ∨ c = '#'))
  (netloc, url.drop netloc.length)

/-- WHATWG C0 control characters and the space: stripped from the front
of a URL (and both ends of a scheme) by CPython `urlsplit`. -/
def isC0OrSpace (c : Char) : Bool := c.toNat ≤ 0x20

/-- CPython `_UNSAFE_URL_BYTES_TO_REMOVE`: tab, CR and LF are deleted
anywhere in the URL and the scheme. -/
def isUnsafeUrlByte (c : Char) : Bool := c = '\t' ∨ c = '\r' ∨ c = '\n'

/-- The URL-argument sanitization of CPython `urlsplit`: lstrip C0
controls and spaces, delete tab/CR/LF anywhere. -/
def sanitizeUrl (s : Str) : Str :=
  (s.dropWhile isC0OrSpace).filter (fun c => ¬ isUnsafeUrlByte c)

/-- The scheme-argument sanitization of CPython `urlsplit`: strip C0
controls and spaces from both ends, delete tab/CR/LF anywhere. -/
def sanitizeScheme (s : Str) : Str :=
  (((s.dropWhile isC0OrSpace).reverse.dropWhile isC0OrSpace).reverse).filter
    (fun c => ¬ isUnsafeUrlByte c)

/-- CPython `urlsplit(url, default_scheme)`: sanitize both arguments, then
split off the scheme, the `//`-led authority (a lone IPv6 bracket in it
raises `ValueError`), the `#`-fragment, and the `?`-query. -/
def urlsplit (url default_scheme : Str) :
    Except PyErr (Str × Str × Str × Str × Str) :=
  let url := sanitizeUrl url
  let default_scheme := sanitizeScheme default_scheme
  let sr := splitScheme url
  let scheme := if sr.1 = [] then default_scheme else sr.1
  let nr :=
    if listStarts (str "//") sr.2 then splitNetloc (sr.2.drop 2)
    else ([], sr.2)
  if ('[' ∈ nr.1 ∧ ¬ ']' ∈ nr.1) ∨ (']' ∈ nr.1 ∧ ¬ '[' ∈ nr.1) then
    .error .valueError
  else
    let fr := splitTail '#' nr.2
    let qr := splitTail '?' fr.1
    .ok (scheme, nr.1, qr.1, qr.2, fr.2)

/-- CPython `uses_relative`. -/
def uses_relative : List Str :=
  [str "", str "ftp", str "http", str "gopher", str "nntp", str "imap",
   str "wais", str "file", str "https", str "shttp", str "mms",
   str "prospero", str "rtsp", str "rtspu", str "sftp", str "svn",
   str "svn+ssh", str "ws", str "wss"]

/-- CPython `uses_netloc`. -/
def uses_netloc : List Str :=
  [str "", str "ftp", str "http", str "gopher", str "nntp", str "telnet",
   str "imap", str "wais", str "file", str "mms", str "https", str "shttp",
   str "snews", str "prospero", str "rtsp", str "rtspu", str "rsync",
   str "svn", str "svn+ssh", str "sftp", str "nfs", str "git",
   str "git+ssh", str "ws", str "wss"]

/-- CPython `uses_params`. -/
def uses_params : List Str :=
  [str "", str "ftp", str "hdl", str "prospero", str "http", str "imap",
   str "https", str "shttp", str "rtsp", str "rtspu", str "sip", str "sips",
   str "mms", str "sftp", str "tel"]

/-- CPython `_splitparams`: split `;params` off the last path segment —
the first `;` at or after the last `/`, or anywhere when there is no `/`
(call sites guarantee a `;` is present). -/
def splitParams (url : Str) : Str × Str :=
  let start :=
    if '/' ∈ url then
      url.length - 1 - ((url.reverse.findIdx? (fun c => c = '/')).getD 0)
    else 0
  match (url.drop start).findIdx? (fun c => c = ';') with
  | none => (url, [])
  | some k => (url.take (start + k), url.drop (start + k + 1))

/-- CPython `urlparse`: `urlsplit`, then split `;params` off the last path
segment when the scheme uses parameters. -/
def urlparse (url default_scheme : Str) : Except PyErr UrlParts :=
  match urlsplit url default_scheme with
  | .error e => .error e
  | .ok (scheme, netloc, path, query, fragment) =>
    if scheme ∈ uses_params ∧ ';' ∈ path then
      let pr := splitParams path
      .ok ⟨scheme, netloc, pr.1, pr.2, query, fragment⟩
    else
      .ok ⟨scheme, netloc, path, [], query, fragment⟩

/-- CPython `urlunsplit`. -/
def urlunsplit (scheme netloc url query fragment : Str) : Str :=
  let url :=
    if netloc ≠ [] ∨ (url ≠ [] ∧ listStarts (str "//") url = true) then
      (str "//") ++ netloc ++
        (if url ≠ [] ∧ ¬ listStarts (str "/") url = true then '/' :: url
         else url)
    else url
  let url := if scheme ≠ [] then scheme ++ ':' :: url else url
  let url := if query ≠ [] then url ++ '?' :: query else url
  if fragment ≠ [] then url ++ '#' :: fragment else url

/-- CPython `urlunparse`: re-attach `;params` to the path, then unsplit. -/
def urlunparse (p : UrlParts) : Str :=
  urlunsplit p.scheme p.netloc
    (if p.params ≠ [] then p.path ++ ';' :: p.params else p.path)
    p.query p.fragment

/-- CPython `urljoin(base, url)` (modern 3.x): parse both with `urlparse`,
return the reference unchanged when its scheme differs from the base\'s or
does not use relative resolution, inherit the authority when absent,
resolve the dot segments of the merged path, and reassemble. -/
def urljoin (base url : Str) : Except PyErr Str :=
  if base = [] then .ok url
  else if url = [] then .ok base
  else
    match urlparse base (str "") with
    | .error e => .error e
    | .ok b =>
      match urlparse url b.scheme with
      | .error e => .error e
      | .ok r =>
        if r.scheme ≠ b.scheme ∨ ¬ r.scheme ∈ uses_relative then .ok url
        else if r.scheme ∈ uses_netloc ∧ r.netloc ≠ [] then
          .ok (urlunparse r)
        else
          let netloc := if r.scheme ∈ uses_netloc then b.netloc else r.netloc
          if r.path = [] ∧ r.params = [] then
            .ok (urlunparse ⟨r.scheme, netloc, b.path, b.params,
              (if r.query = [] then b.query else r.query), r.fragment⟩)
          else
            let bp := splitSlash b.path
            let base_parts := if bp.getLast? = some [] then bp else bp.dropLast
            let segments :=
              if listStarts (str "/") r.path then splitSlash r.path
              else filterInterior (base_parts ++ splitSlash r.path)
            let resolved := resolveSegs segments
            let resolved :=
              if segments.getLast? = some ['.', '.'] ∨
                  segments.getLast? = some ['.']
              then resolved ++ [[]] else resolved
            let j := joinSlash resolved
            .ok (urlunparse ⟨r.scheme, netloc, (if j = [] then ['/'] else j),
              r.params, r.query, r.fragment⟩)

/-- The `final_path[len(base_path):len(base_path)+1] in ('', '/')` check of
`_normalize_name`: the character of `final_path` right after the base is
end-of-string or a separator. -/
def boundaryOk (base_path final_path : Str) : Bool :=
  match final_path.drop base_path.length with
  | [] => true
  | c :: _ => c = '/'

/-- `_normalize_name` (qingstor.py lines 135-148): joins the name onto the
configured location with `urljoin`, raises `SuspiciousOperation` unless the
joined form still starts with the location followed by end-of-string or a
slash, and returns the joined form with leading slashes stripped.  An
exception raised inside `urljoin` propagates. -/
def _normalize_name (location name : Str) : Except PyErr Str :=
  let base_path := rstripSlash location
  match urljoin (rstripSlash base_path ++ ['/']) name with
  | .error e => .error e
  | .ok final_path =>
    if ¬ (listStarts base_path final_path && boundaryOk base_path final_path) = true
    then .error .suspiciousOperation
    else .ok (lstripSlash final_path)

/-- Containment as the code decides it: the `urljoin`-resolved form of the
name against the root passes the root-prefix-and-boundary check.  This is
URL resolution, not POSIX path resolution: a scheme-like name (`c:file`)
is returned unresolved by `urljoin` and fails the check even though it
names a file under the root, while `..` segments sitting in a query or
params component are never resolved. -/
def staysWithinRoot (location name : Str) : Bool :=
  let base_path := rstripSlash location
  match urljoin (rstripSlash base_path ++ ['/']) name with
  | .error _ => false
  | .ok final_path =>
    listStarts base_path final_path && boundaryOk base_path final_path

/-- Claim C1's within-root notion as written: POSIX-style lexical
normalization (`posixpath.normpath`) of the name joined onto the root,
then the same root-prefix-and-boundary check. -/
def posixStaysWithinRoot (location name : Str) : Bool :=
  let base_path := rstripSlash location
  let joined := normpath (base_path ++ '/' :: name)
  listStarts base_path joined && boundaryOk base_path joined

theorem listStarts_iff (p s : Str) : listStarts p s = true ↔ ∃ t, s = p ++ t := by
  induction p generalizing s with
  | nil => simp [listStarts]
  | cons x xs ih =>
    cases s with
    | nil => simp [listStarts]
    | cons y ys =>
      simp only [listStarts, Bool.and_eq_true, decide_eq_true_eq, ih]
      constructor
      · rintro ⟨rfl, t, rfl⟩; exact ⟨t, rfl⟩
      · rintro ⟨t, h⟩
        cases h
        exact ⟨rfl, t, rfl⟩

theorem listStarts_append (p t : Str) : listStarts p (p ++ t) = true :=
  (listStarts_iff p (p ++ t)).2 ⟨t, rfl⟩

theorem head?_dropWhile_not (p : Char → Bool) (l : Str) :
    ∀ c, (l.dropWhile p).head? = some c → p c = false := by
  induction l with
  | nil => intro c h; simp [List.dropWhile] at h
  | cons x xs ih =>
    intro c h
    by_cases hx : p x
    · rw [List.dropWhile_cons_of_pos hx] at h; exact ih c h
    · rw [List.dropWhile_cons_of_neg hx] at h
      simp at h
      subst h
      simp [hx]

theorem dropWhile_append_of_ne_nil (p : Char → Bool) (xs ys : Str)
    (h : xs.dropWhile p ≠ []) :
    (xs ++ ys).dropWhile p = xs.dropWhile p ++ ys := by
  induction xs with
  | nil => simp [List.dropWhile] at h
  | cons x rest ih =>
    by_cases hx : p x
    · rw [List.dropWhile_cons_of_pos hx] at h ⊢
      rw [List.cons_append, List.dropWhile_cons_of_pos hx]
      exact ih h
    · rw [List.cons_append, List.dropWhile_cons_of_neg hx,
        List.dropWhile_cons_of_neg hx]
      simp

theorem getLast?_rstripSlash (l : Str) :
    ∀ c, (rstripSlash l).getLast? = some c → c ≠ '/' := by
  intro c h
  rw [rstripSlash, List.getLast?_reverse] at h
  have := head?_dropWhile_not (fun c => c = '/') l.reverse c h
  simpa using this

theorem dropWhile_ne_nil_of_getLast (p : Char → Bool) (l : Str)
    (c : Char) (hl : l.getLast? = some c) (hc : p c = false) :
    l.dropWhile p ≠ [] := by
  induction l with
  | nil => simp at hl
  | cons x xs ih =>
    cases xs with
    | nil =>
      simp at hl
      subst hl
      simp [List.dropWhile, hc]
    | cons y ys =>
      rw [List.getLast?_cons_cons] at hl
      by_cases hx : p x
      · rw [List.dropWhile_cons_of_pos hx]
        exact ih hl
      · rw [List.dropWhile_cons_of_neg hx]
        simp

theorem head?_lstripSlash (l : Str) : (lstripSlash l).head? ≠ some '/' := by
  intro h
  have := head?_dropWhile_not (fun c => c = '/') l '/' h
  simp at this

theorem key_shape_aux (base fp : Str)
    (hbl : ∀ c, base.getLast? = some c → c ≠ '/')
    (hpre : listStarts base fp = true)
    (hnext : boundaryOk base fp = true) :
    listStarts (lstripSlash base) (lstripSlash fp) = true ∧
    (lstripSlash base ≠ [] → boundaryOk (lstripSlash base) (lstripSlash fp) = true) ∧
    (lstripSlash fp).head? ≠ some '/' := by
  obtain ⟨t, rfl⟩ := (listStarts_iff base fp).1 hpre
  by_cases hb : base = []
  · subst hb
    refine ⟨rfl, ?_, head?_lstripSlash _⟩
    intro hc
    simp [lstripSlash] at hc
  · cases hgl : base.getLast? with
    | none => exact absurd (List.getLast?_eq_none_iff.mp hgl) hb
    | some c =>
      have hc : c ≠ '/' := hbl c hgl
      have hne : base.dropWhile (fun c => c = '/') ≠ [] :=
        dropWhile_ne_nil_of_getLast _ base c hgl (by simp [hc])
      have hsplit : lstripSlash (base ++ t) = lstripSlash base ++ t := by
        unfold lstripSlash
        exact dropWhile_append_of_ne_nil _ base t hne
      have hdrop : (lstripSlash base ++ t).drop (lstripSlash base).length = t :=
        List.drop_left _ _
      have hbt : (base ++ t).drop base.length = t := List.drop_left _ _
      unfold boundaryOk at hnext ⊢
      rw [hbt] at hnext
      rw [hsplit, hdrop]
      refine ⟨listStarts_append _ _, fun _ => hnext, ?_⟩
      rw [← hsplit]
      exact head?_lstripSlash _

/-- C1 counterexample: `_normalize_name` does not decide containment on
the POSIX-normalized joined path.  Under the empty root, `"c:file"` names
a file inside the root POSIX-wise, yet the code raises
`SuspiciousOperation` because `urljoin` parses `c:` as a scheme and
returns the name un-joined; under root `"uploads"`, the `..` segments of
`"a?../../../x"` escape the root POSIX-wise, yet the code returns a key —
`urljoin` moves everything after `?` into the query, which is never
resolved. -/
theorem normalize_ignores_posix_semantics :
    (posixStaysWithinRoot (str "") (str "c:file") = true ∧
      _normalize_name (str "") (str "c:file") = .error .suspiciousOperation) ∧
    (posixStaysWithinRoot (str "uploads") (str "a?../../../x") = false ∧
      _normalize_name (str "uploads") (str "a?../../../x") =
        .ok (str "uploads/a?../../../x")) :=
  ⟨⟨by decide, rfl⟩, ⟨by decide, rfl⟩⟩

/-- C1 as amended: `_normalize_name` decides containment on the
`urljoin`-resolved form of the name, not on POSIX semantics.  When
`urljoin` of the name onto the root succeeds with `fp`, the call fails
with `SuspiciousOperation` exactly when `fp` does not start with the root
followed by end-of-string or a separator (`staysWithinRoot`), and
otherwise returns `fp` stripped of leading separators — a key that starts
with the normalized root at a separator boundary and never starts with a
separator itself; an error raised inside `urljoin` propagates unchanged. -/
theorem normalize_name_urljoin_containment (location name : Str) :
    (∀ e, urljoin (rstripSlash (rstripSlash location) ++ ['/']) name =
        .error e →
      _normalize_name location name = .error e) ∧
    (∀ fp, urljoin (rstripSlash (rstripSlash location) ++ ['/']) name =
        .ok fp →
      (staysWithinRoot location name = false →
        _normalize_name location name = .error .suspiciousOperation) ∧
      (staysWithinRoot location name = true →
        _normalize_name location name = .ok (lstripSlash fp) ∧
        listStarts (lstripSlash (rstripSlash location)) (lstripSlash fp) =
          true ∧
        (lstripSlash (rstripSlash location) ≠ [] →
          boundaryOk (lstripSlash (rstripSlash location)) (lstripSlash fp) =
            true) ∧
        (lstripSlash fp).head? ≠ some '/')) := by
  constructor
  · intro e he
    unfold _normalize_name
    simp only [he]
  · intro fp hfp
    constructor
    · intro h
      unfold staysWithinRoot at h
      simp only [hfp] at h
      unfold _normalize_name
      simp only [hfp]
      rw [h]
      simp
    · intro h
      unfold staysWithinRoot at h
      simp only [hfp, Bool.and_eq_true] at h
      obtain ⟨hpre, hnext⟩ := h
      obtain ⟨h1, h2, h3⟩ := key_shape_aux _ _
        (getLast?_rstripSlash location) hpre hnext
      refine ⟨?_, h1, h2, h3⟩
      unfold _normalize_name
      simp only [hfp, hpre, hnext]
      simp

/-- Witness for C1's amended theorem: under root `"uploads"`,
`"../../etc/passwd"` resolves outside and is rejected, `"a/b.txt"`
resolves inside and yields a root-prefixed key, and the scheme-like
`"c:file"` fails the containment check. -/
theorem normalize_name_urljoin_containment_witness :
    (_normalize_name (str "uploads") (str "../../etc/passwd") =
      .error .suspiciousOperation) ∧
    (_normalize_name (str "uploads") (str "a/b.txt") =
        .ok (lstripSlash (str "uploads/a/b.txt")) ∧
      listStarts (lstripSlash (rstripSlash (str "uploads")))
        (lstripSlash (str "uploads/a/b.txt")) = true ∧
      (lstripSlash (rstripSlash (str "uploads")) ≠ [] →
        boundaryOk (lstripSlash (rstripSlash (str "uploads")))
          (lstripSlash (str "uploads/a/b.txt")) = true) ∧
      (lstripSlash (str "uploads/a/b.txt")).head? ≠ some '/') ∧
    (_normalize_name (str "uploads") (str "c:file") =
      .error .suspiciousOperation) :=
  ⟨((normalize_name_urljoin_containment (str "uploads")
        (str "../../etc/passwd")).2 (str "etc/passwd") rfl).1 (by decide),
   ((normalize_name_urljoin_containment (str "uploads")
        (str "a/b.txt")).2 (str "uploads/a/b.txt") rfl).2 (by decide),
   ((normalize_name_urljoin_containment (str "uploads")
        (str "c:file")).2 (str "c:file") rfl).1 (by decide)⟩

/-- The remote bucket: an association list from keys to object bodies, kept
in insertion order (`list_objects` reports entries in this order). -/
abbrev Remote := List (Str × Bytes)

/-- `bucket.put_object(key, body)`: overwrite an existing key in place, or
append a new entry. -/
def put_object (remote : Remote) (key : Str) (body : Bytes) : Remote :=
  match remote with
  | [] => [(key, body)]
  | (k, v) :: rest =>
    if k = key then (k, body) :: rest else (k, v) :: put_object rest key body

/-- `bucket.get_object(key).content`: the stored body, `none` when the key
is absent (the SDK then yields a non-success response, not the object). -/
def get_object (remote : Remote) (key : Str) : Option Bytes :=
  match remote with
  | [] => none
  | (k, v) :: rest => if k = key then some v else get_object rest key

/-- `bucket.list_objects(prefix=p)['keys']`: all stored entries whose key
starts with `p`, in bucket order. -/
def list_objects (remote : Remote) (p : Str) : List (Str × Bytes) :=
  remote.filter (fun kv => listStarts p kv.1)

/-- Remote effects issued by a storage operation. -/
inductive RemoteOp where
  | put (key : Str) (body : Bytes)
  deriving DecidableEq, Repr

/-- Run a list of remote effects against the bucket state. -/
def applyOps (remote : Remote) (ops : List RemoteOp) : Remote :=
  ops.foldl (fun r op => match op with | .put k v => put_object r k v) remote

/-- The configuration of one `QingStorStorage` instance (the class attribute
`location` is `""` in the source; `host` is `config.host`). -/
structure QingStorStorage where
  location : Str
  bucket_name : Str
  zone : Str
  host : Str
  secure_url : Bool
  deriving DecidableEq, Repr

/-- The storage configuration exercised by the repository's test-suite:
empty root, bucket `test`, zone `test`, host `qingstor.com`, secure URLs. -/
def testStore : QingStorStorage :=
  ⟨[], str "test", str "test", str "qingstor.com", true⟩

/-- An argument value of the modelled constructor call
`QingStorFile(self, name=name, mode=mode)`: the storage object itself, or a
string. -/
inductive PyVal where
  | storeV (st : QingStorStorage)
  | strV (s : Str)
  deriving DecidableEq, Repr

/-- Python call-argument binding against the parameter list
`(name, storage, mode)` of `QingStorFile.__init__` (line 26): positional
arguments fill parameters left to right; a keyword argument for an
already-filled or unknown parameter raises `TypeError`, as do surplus
positional arguments and a parameter left unbound. -/
def bindInitArgs (pos : List PyVal) (kw : List (String × PyVal)) :
    Except PyErr (PyVal × PyVal × PyVal) :=
  let params : List String := ["name", "storage", "mode"]
  if pos.length > params.length then .error .typeError
  else
    match kw.foldl
        (fun (acc : Except PyErr (List (String × PyVal))) kv =>
          match acc with
          | .error e => .error e
          | .ok b =>
            if (b.map Prod.fst).contains kv.1 then .error PyErr.typeError
            else if params.contains kv.1 then .ok (b ++ [kv])
            else .error PyErr.typeError)
        (.ok (params.zip pos)) with
    | .error e => .error e
    | .ok b =>
      match b.lookup "name", b.lookup "storage", b.lookup "mode" with
      | some n, some s, some m => .ok (n, s, m)
      | _, _, _ => .error .typeError

/-- `_open` (qingstor.py lines 150-151): the source constructs the handle
with `QingStorFile(self, name=name, mode=mode)`, so the storage object is
passed positionally into the `name` parameter while `name` is also given as
a keyword.  The model returns the values Python's argument binding would
hand to `__init__` for `(name, storage, mode)`. -/
def QingStorStorage._open (st : QingStorStorage) (name : Str) (mode : Str) :
    Except PyErr (PyVal × PyVal × PyVal) :=
  bindInitArgs [PyVal.storeV st]
    [("name", PyVal.strV name), ("mode", PyVal.strV mode)]

/-- C2 (code bug in `_open`): the call `QingStorFile(self, name=name,
mode=mode)` always raises `TypeError` — the positional `self` already fills
the `name` parameter, so the `name=` keyword is a duplicate and no handle
is ever constructed. -/
theorem open_always_raises_type_error (st : QingStorStorage)
    (name mode : Str) :
    QingStorStorage._open st name mode = .error .typeError := rfl

/-- `size` (qingstor.py lines 187-189): lists remote objects with the given
name — not normalized — as prefix and returns the byte length of the first
entry; the empty listing raises (`IndexError` on `['keys'][0]`, modelled as
`notFound`). -/
def QingStorStorage.size (remote : Remote) (name : Str) : Except PyErr Nat :=
  match list_objects remote name with
  | [] => .error .notFound
  | (_, v) :: _ => .ok v.length

/-- Claim C4's reading of `size`: first normalize the name (as every other
storage operation does), then list with the normalized key as prefix. -/
def size_spec (st : QingStorStorage) (remote : Remote) (name : Str) :
    Except PyErr Nat :=
  match _normalize_name st.location (_clean_name name) with
  | .error e => .error e
  | .ok key =>
    match list_objects remote key with
    | [] => .error .notFound
    | (_, v) :: _ => .ok v.length

/-- C4 counterexample: `size` does not normalize its argument.  With the
object stored under its normalized key `"a.txt"`, `size("./a.txt")` lists
with raw prefix `"./a.txt"`, matches nothing and fails, while the
normalize-first reading of the claim returns the stored size 3. -/
theorem size_skips_normalization :
    QingStorStorage.size [(str "a.txt", [104, 105, 33])] (str "./a.txt") =
      .error .notFound ∧
    size_spec testStore [(str "a.txt", [104, 105, 33])] (str "./a.txt") =
      .ok 3 := by
  constructor <;> rfl

/-- C4 as amended: `size` lists objects with the given (raw, un-normalized)
name as prefix; it returns the byte length of the first matching entry and
fails with the not-found error when no entry matches. -/
theorem size_first_match (remote : Remote) (name : Str) :
    (list_objects remote name = [] →
      QingStorStorage.size remote name = .error .notFound) ∧
    (∀ k v rest, list_objects remote name = (k, v) :: rest →
      QingStorStorage.size remote name = .ok v.length) := by
  constructor
  · intro h
    unfold QingStorStorage.size
    rw [h]
  · intro k v rest h
    unfold QingStorStorage.size
    rw [h]

/-- Witness for C4's amended theorem: a one-object bucket, hit and miss. -/
theorem size_first_match_witness :
    QingStorStorage.size [(str "a.txt", [104, 105, 33])] (str "a.txt") =
      .ok 3 ∧
    QingStorStorage.size [(str "a.txt", [104, 105, 33])] (str "b.txt") =
      .error .notFound :=
  ⟨(size_first_match [(str "a.txt", [104, 105, 33])] (str "a.txt")).2
      (str "a.txt") [104, 105, 33] [] (by decide),
   (size_first_match [(str "a.txt", [104, 105, 33])] (str "b.txt")).1
      (by decide)⟩

/-- `_put_file` (qingstor.py lines 153-154): one `bucket.put_object`. -/
def _put_file (name : Str) (content : Bytes) : List RemoteOp :=
  [.put name content]

/-- `_save` (qingstor.py lines 156-161): cleans the caller-supplied name,
normalizes the cleaned name into the remote key (which can raise
`SuspiciousOperation`), puts the content at the key, and returns the
cleaned name. -/
def _save (st : QingStorStorage) (name : Str) (content : Bytes) :
    Except PyErr (Str × List RemoteOp) :=
  let cleaned_name := _clean_name name
  match _normalize_name st.location cleaned_name with
  | .error e => .error e
  | .ok key => .ok (cleaned_name, _put_file key content)

/-- C6: for a name within the root, `_save` issues exactly one remote put
of the content at the key `normalizeName(cleanName(name))` and returns the
cleaned caller-facing name, not the internal key. -/
theorem save_puts_once (st : QingStorStorage) (name : Str) (content : Bytes)
    (key : Str)
    (h : _normalize_name st.location (_clean_name name) = .ok key) :
    _save st name content = .ok (_clean_name name, [RemoteOp.put key content]) := by
  unfold _save _put_file
  simp only [h]

/-- Witness for C6 at `name = "a/b.txt"` against the test configuration. -/
theorem save_puts_once_witness :
    _save testStore (str "a/b.txt") [104, 105] =
      .ok (_clean_name (str "a/b.txt"), [RemoteOp.put (str "a/b.txt") [104, 105]]) :=
  save_puts_once testStore (str "a/b.txt") [104, 105] (str "a/b.txt") rfl

/-- UTF-8 encoding of one Unicode scalar value. -/
def utf8EncodeNat (v : Nat) : Bytes :=
  if v < 0x80 then [v]
  else if v < 0x800 then [0xC0 + v / 64, 0x80 + v % 64]
  else if v < 0x10000 then
    [0xE0 + v / 4096, 0x80 + v / 64 % 64, 0x80 + v % 64]
  else
    [0xF0 + v / 262144, 0x80 + v / 4096 % 64, 0x80 + v / 64 % 64, 0x80 + v % 64]

/-- UTF-8 encoding of a text string (Python `str.encode('utf-8')`, i.e.
`force_bytes` applied to text). -/
def utf8Encode (s : Str) : Bytes :=
  (s.map (fun c => utf8EncodeNat c.toNat)).flatten

/-- Read `n` UTF-8 continuation bytes, returning their combined payload
(most significant first) and the remaining input. -/
def contBytes : Nat → Bytes → Option (Nat × Bytes)
  | 0, bs => some (0, bs)
  | _ + 1, [] => none
  | n + 1, b :: bs =>
    if 0x80 ≤ b ∧ b < 0xC0 then
      (contBytes n bs).map (fun p => ((b - 0x80) * 64 ^ n + p.1, p.2))
    else none

theorem contBytes_length :
    ∀ (n : Nat) (bs : Bytes) (v : Nat) (rest : Bytes),
      contBytes n bs = some (v, rest) → rest.length ≤ bs.length := by
  intro n
  induction n with
  | zero =>
    intro bs v rest h
    simp [contBytes] at h
    simp [← h.2]
  | succ m ih =>
    intro bs v rest h
    cases bs with
    | nil => simp [contBytes] at h
    | cons b tl =>
      unfold contBytes at h
      split at h
      · cases hc : contBytes m tl with
        | none => rw [hc] at h; simp at h
        | some q =>
          rw [hc] at h
          simp at h
          have := ih tl q.1 q.2 (by rw [hc])
          rw [← h.2]
          exact Nat.le_trans this (Nat.le_succ _)
      · simp at h

/-- Classify a UTF-8 lead byte and read the continuation bytes it calls
for: the decoded scalar value and the remaining input. -/
def headVal (b : Nat) (bs : Bytes) : Option (Nat × Bytes) :=
  if b < 0x80 then some (b, bs)
  else if b < 0xC0 then none
  else if b < 0xE0 then
    (contBytes 1 bs).map (fun p => ((b - 0xC0) * 64 + p.1, p.2))
  else if b < 0xF0 then
    (contBytes 2 bs).map (fun p => ((b - 0xE0) * 4096 + p.1, p.2))
  else if b < 0xF8 then
    (contBytes 3 bs).map (fun p => ((b - 0xF0) * 262144 + p.1, p.2))
  else none

theorem headVal_length (b : Nat) (bs : Bytes) (v : Nat) (rest : Bytes)
    (h : headVal b bs = some (v, rest)) : rest.length ≤ bs.length := by
  unfold headVal at h
  split at h
  · simp at h
    simp [← h.2]
  · split at h
    · simp at h
    · split at h
      · cases hc : contBytes 1 bs with
        | none => rw [hc] at h; simp at h
        | some q =>
          rw [hc] at h; simp at h
          have := contBytes_length 1 bs q.1 q.2 (by rw [hc])
          rw [← h.2]; exact this
      · split at h
        · cases hc : contBytes 2 bs with
          | none => rw [hc] at h; simp at h
          | some q =>
            rw [hc] at h; simp at h
            have := contBytes_length 2 bs q.1 q.2 (by rw [hc])
            rw [← h.2]; exact this
        · split at h
          · cases hc : contBytes 3 bs with
            | none => rw [hc] at h; simp at h
            | some q =>
              rw [hc] at h; simp at h
              have := contBytes_length 3 bs q.1 q.2 (by rw [hc])
              rw [← h.2]; exact this
          · simp at h

/-- UTF-8 decoding (`force_text`): rejects stray continuation bytes,
truncated sequences, and scalar values outside the valid `Char` range. -/
def utf8Decode : Bytes → Option Str
  | [] => some []
  | b :: bs =>
    match hstep : headVal b bs with
    | none => none
    | some (v, rest) =>
      if Nat.isValidChar v then
        (utf8Decode rest).map (fun s => Char.ofNat v :: s)
      else none
termination_by l => l.length
decreasing_by
  have := headVal_length b bs v rest hstep
  simp only [List.length_cons]
  omega

theorem utf8Decode_cons (b : Nat) (bs : Bytes) :
    utf8Decode (b :: bs) =
      match headVal b bs with
      | none => none
      | some (v, rest) =>
        if Nat.isValidChar v then
          (utf8Decode rest).map (fun s => Char.ofNat v :: s)
        else none := by
  rw [utf8Decode]
  cases hv : headVal b bs with
  | none => rfl
  | some p => cases p; rfl

theorem char_toNat_valid (c : Char) : Nat.isValidChar c.toNat := c.valid

theorem char_toNat_lt (c : Char) : c.toNat < 0x110000 := by
  rcases c.valid with h | ⟨_, h⟩
  · exact Nat.lt_trans h (by decide)
  · exact h

theorem utf8Decode_encodeNat_cons (c : Char) (bs : Bytes) (s : Str)
    (ih : utf8Decode bs = some s) :
    utf8Decode (utf8EncodeNat c.toNat ++ bs) = some (c :: s) := by
  have hvalid := char_toNat_valid c
  have hlt := char_toNat_lt c
  set v := c.toNat with hv
  by_cases h1 : v < 0x80
  · have hhead : headVal v bs = some (v, bs) := by
      unfold headVal
      rw [if_pos h1]
    rw [utf8EncodeNat, if_pos h1, List.singleton_append, utf8Decode_cons,
      hhead]
    show (if Nat.isValidChar v then
        (utf8Decode bs).map (fun s => Char.ofNat v :: s)
      else none) = some (c :: s)
    rw [if_pos hvalid, ih, hv, Char.ofNat_toNat]
    rfl
  · by_cases h2 : v < 0x800
    · have hb1 : ¬ (0xC0 + v / 64 < 0x80) := by omega
      have hb2 : ¬ (0xC0 + v / 64 < 0xC0) := by omega
      have hb3 : 0xC0 + v / 64 < 0xE0 := by omega
      have hc1 : 0x80 ≤ 0x80 + v % 64 ∧ 0x80 + v % 64 < 0xC0 := by omega
      have hhead : headVal (0xC0 + v / 64) ((0x80 + v % 64) :: bs) =
          some (v, bs) := by
        unfold headVal
        rw [if_neg hb1, if_neg hb2, if_pos hb3]
        simp [contBytes, hc1]
        omega
      rw [utf8EncodeNat, if_neg h1, if_pos h2, List.cons_append,
        List.singleton_append, utf8Decode_cons, hhead]
      show (if Nat.isValidChar v then
          (utf8Decode bs).map (fun s => Char.ofNat v :: s)
        else none) = some (c :: s)
      rw [if_pos hvalid, ih, hv, Char.ofNat_toNat]
      rfl
    · by_cases h3 : v < 0x10000
      · have hb1 : ¬ (0xE0 + v / 4096 < 0x80) := by omega
        have hb2 : ¬ (0xE0 + v / 4096 < 0xC0) := by omega
        have hb3 : ¬ (0xE0 + v / 4096 < 0xE0) := by omega
        have hb4 : 0xE0 + v / 4096 < 0xF0 := by omega
        have hc1 : 0x80 ≤ 0x80 + v / 64 % 64 ∧ 0x80 + v / 64 % 64 < 0xC0 := by
          omega
        have hc2 : 0x80 ≤ 0x80 + v % 64 ∧ 0x80 + v % 64 < 0xC0 := by omega
        have hhead : headVal (0xE0 + v / 4096)
            ((0x80 + v / 64 % 64) :: (0x80 + v % 64) :: bs) =
            some (v, bs) := by
          unfold headVal
          rw [if_neg hb1, if_neg hb2, if_neg hb3, if_pos hb4]
          simp [contBytes, hc1, hc2]
          omega
        rw [utf8EncodeNat, if_neg h1, if_neg h2, if_pos h3, List.cons_append,
          List.cons_append, List.singleton_append, utf8Decode_cons, hhead]
        show (if Nat.isValidChar v then
            (utf8Decode bs).map (fun s => Char.ofNat v :: s)
          else none) = some (c :: s)
        rw [if_pos hvalid, ih, hv, Char.ofNat_toNat]
        rfl
      · have hb1 : ¬ (0xF0 + v / 262144 < 0x80) := by omega
        have hb2 : ¬ (0xF0 + v / 262144 < 0xC0) := by omega
        have hb3 : ¬ (0xF0 + v / 262144 < 0xE0) := by omega
        have hb4 : ¬ (0xF0 + v / 262144 < 0xF0) := by omega
        have hb5 : 0xF0 + v / 262144 < 0xF8 := by omega
        have hc1 : 0x80 ≤ 0x80 + v / 4096 % 64 ∧ 0x80 + v / 4096 % 64 < 0xC0 := by
          omega
        have hc2 : 0x80 ≤ 0x80 + v / 64 % 64 ∧ 0x80 + v / 64 % 64 < 0xC0 := by
          omega
        have hc3 : 0x80 ≤ 0x80 + v % 64 ∧ 0x80 + v % 64 < 0xC0 := by omega
        have hhead : headVal (0xF0 + v / 262144)
            ((0x80 + v / 4096 % 64) :: (0x80 + v / 64 % 64) ::
              (0x80 + v % 64) :: bs) =
            some (v, bs) := by
          unfold headVal
          rw [if_neg hb1, if_neg hb2, if_neg hb3, if_neg hb4, if_pos hb5]
          simp [contBytes, hc1, hc2, hc3]
          omega
        rw [utf8EncodeNat, if_neg h1, if_neg h2, if_neg h3, List.cons_append,
          List.cons_append, List.cons_append, List.singleton_append,
          utf8Decode_cons, hhead]
        show (if Nat.isValidChar v then
            (utf8Decode bs).map (fun s => Char.ofNat v :: s)
          else none) = some (c :: s)
        rw [if_pos hvalid, ih, hv, Char.ofNat_toNat]
        rfl

/-- UTF-8 decoding is a left inverse of UTF-8 encoding. -/
theorem utf8Decode_utf8Encode (s : Str) : utf8Decode (utf8Encode s) = some s := by
  induction s with
  | nil => simp [utf8Encode, utf8Decode]
  | cons c cs ih =>
    show utf8Decode (utf8EncodeNat c.toNat ++ utf8Encode cs) = some (c :: cs)
    exact utf8Decode_encodeNat_cons c (utf8Encode cs) cs ih

/-- The characters `urllib.parse.quote` never escapes (ASCII alphanumerics
and `_.-~`) together with Django `filepath_to_uri`'s safe set `/~!*()'`. -/
def quoteSafe (c : Char) : Bool :=
  c.isAlphanum || c ∈ ['_', '.', '-', '~', '/', '!', '*', '(', ')', '\'']

/-- Upper-case hexadecimal digit (for `n < 16`). -/
def hexDigit (n : Nat) : Char :=
  if n < 10 then Char.ofNat (48 + n) else Char.ofNat (55 + n)

/-- Percent-escape of one byte: `%XX`. -/
def pctByte (b : Nat) : Str :=
  ['%', hexDigit (b / 16), hexDigit (b % 16)]

/-- Django `filepath_to_uri` (used by `url`, qingstor.py line 206): replace
backslashes with slashes, then percent-encode every character outside the
safe set, byte by byte of its UTF-8 encoding. -/
def filepath_to_uri (s : Str) : Str :=
  ((s.map (fun c => if c = '\\' then '/' else c)).map
    (fun c =>
      if quoteSafe c then [c]
      else ((utf8EncodeNat c.toNat).map pctByte).flatten)).flatten

/-- `url` (qingstor.py lines 204-211): normalize the cleaned name,
URI-encode it, pick the scheme from `secure_url`, and `urljoin` it onto
`protocol + bucket_name + '.' + zone + '.' + config.host`.  A pure
function of the configuration — no remote state is consulted. -/
def QingStorStorage.url (st : QingStorStorage) (name : Str) :
    Except PyErr Str :=
  match _normalize_name st.location (_clean_name name) with
  | .error e => .error e
  | .ok n =>
    let n := filepath_to_uri n
    let protocol := if st.secure_url then str "https://" else str "http://"
    match urljoin
        (protocol ++ st.bucket_name ++ ['.'] ++ st.zone ++ ['.'] ++ st.host)
        n with
    | .error e => .error e
    | .ok u => .ok u

/-- A plain URI path reference: nonempty, not separator-led, free of the
delimiters `urlparse` reacts to (`:` `?` `#` `;`), with no `.`/`..`
segment and no empty interior segment.  `filepath_to_uri` output on a
normalized key has this shape: all four delimiters are percent-escaped. -/
def plainUriRef (q : Str) : Prop :=
  q ≠ [] ∧ q.head? ≠ some '/' ∧
  (∀ c ∈ q, c ≠ ':' ∧ c ≠ '?' ∧ c ≠ '#' ∧ c ≠ ';') ∧
  (∀ seg ∈ splitSlash q, seg ≠ ['.'] ∧ seg ≠ ['.', '.']) ∧
  (∀ seg ∈ (splitSlash q).dropLast, seg ≠ []) ∧
  (∀ c ∈ q.take 1, isC0OrSpace c = false) ∧
  (∀ c ∈ q, isUnsafeUrlByte c = false)

instance (q : Str) : Decidable (plainUriRef q) := by
  unfold plainUriRef
  infer_instance

/-- A well-formed authority component: none of the characters that would
end the netloc (`/` `?` `#`) or trip the IPv6 bracket check (`[` `]`). -/
def netlocOk (s : Str) : Prop :=
  ∀ c ∈ s, c ≠ '/' ∧ c ≠ '?' ∧ c ≠ '#' ∧ c ≠ '[' ∧ c ≠ ']' ∧
    isUnsafeUrlByte c = false

instance (s : Str) : Decidable (netlocOk s) := by
  unfold netlocOk
  infer_instance

theorem takeWhile_eq_self_of_all (p : Char → Bool) (l : Str)
    (h : ∀ c ∈ l, p c = true) : l.takeWhile p = l := by
  induction l with
  | nil => rfl
  | cons x xs ih =>
    rw [List.takeWhile_cons, if_pos (h x (by simp)),
      ih (fun c hc => h c (by simp [hc]))]

theorem dropWhile_eq_nil_of_all (p : Char → Bool) (l : Str)
    (h : ∀ c ∈ l, p c = true) : l.dropWhile p = [] := by
  induction l with
  | nil => rfl
  | cons x xs ih =>
    rw [List.dropWhile_cons_of_pos (h x (by simp))]
    exact ih (fun c hc => h c (by simp [hc]))

theorem splitTail_not_mem (ch : Char) (l : Str) (h : ¬ ch ∈ l) :
    splitTail ch l = (l, []) := by
  unfold splitTail
  rw [takeWhile_eq_self_of_all _ _ (fun c hc => by
      simp
      intro he
      exact h (he ▸ hc)),
    dropWhile_eq_nil_of_all _ _ (fun c hc => by
      simp
      intro he
      exact h (he ▸ hc))]
  rfl

theorem listStarts_slash_false (p q : Str) (hp : p.head? = some '/')
    (hq : q.head? ≠ some '/') : listStarts p q = false := by
  cases p with
  | nil => simp at hp
  | cons a ps =>
    cases q with
    | nil => rfl
    | cons c cs =>
      simp at hp
      subst hp
      have hc : ¬ ('/' : Char) = c := fun h => hq (by rw [← h]; rfl)
      show ((('/' : Char) = c : Bool) && listStarts ps cs) = false
      simp [hc]

theorem splitSlash_ne_nil (s : Str) : splitSlash s ≠ [] := by
  cases s with
  | nil => simp [splitSlash]
  | cons c rest =>
    unfold splitSlash
    by_cases hc : c = '/'
    · rw [if_pos hc]; simp
    · rw [if_neg hc]
      cases h : splitSlash rest with
      | nil => simp
      | cons a t => simp

theorem joinSlash_splitSlash (s : Str) : joinSlash (splitSlash s) = s := by
  induction s with
  | nil => rfl
  | cons c rest ih =>
    unfold splitSlash
    by_cases hc : c = '/'
    · rw [if_pos hc]
      cases h : splitSlash rest with
      | nil => exact absurd h (splitSlash_ne_nil rest)
      | cons a t =>
        rw [h] at ih
        rw [joinSlash, ih, hc]
        rfl
    · rw [if_neg hc]
      cases h : splitSlash rest with
      | nil => exact absurd h (splitSlash_ne_nil rest)
      | cons a t =>
        rw [h] at ih
        show joinSlash ((c :: a) :: t) = c :: rest
        cases t with
        | nil =>
          show c :: a = c :: rest
          rw [joinSlash] at ih
          rw [ih]
        | cons b t2 =>
          rw [joinSlash]
          rw [joinSlash] at ih
          rw [← ih]
          rfl

theorem interiorFilter_id (l : List Str)
    (h : ∀ seg ∈ l.dropLast, seg ≠ []) : interiorFilter l = l := by
  induction l with
  | nil => rfl
  | cons x xs ih =>
    cases xs with
    | nil => rfl
    | cons y ys =>
      have hx : x ≠ [] := h x (by simp)
      rw [interiorFilter, if_neg hx]
      rw [ih]
      intro seg hs
      exact h seg (by simp [List.dropLast_cons_of_ne_nil] at hs ⊢; right; exact hs)

theorem foldl_resolveStep_no_dots (segs : List Str)
    (h : ∀ seg ∈ segs, seg ≠ ['.'] ∧ seg ≠ ['.', '.']) :
    ∀ acc, segs.foldl resolveStep acc = acc ++ segs := by
  induction segs with
  | nil => intro acc; simp
  | cons a t ih =>
    intro acc
    have ha := h a (by simp)
    rw [List.foldl_cons,
      show resolveStep acc a = acc ++ [a] by
        unfold resolveStep; rw [if_neg ha.2, if_neg ha.1],
      ih (fun seg hs => h seg (by simp [hs])) (acc ++ [a])]
    simp

/-- `urlparse` of a plain URI path reference with any default scheme: the
whole reference is the path. -/
theorem urlparse_plain_ref (q ds : Str) (hq1 : q ≠ [])
    (hc : ∀ c ∈ q, c ≠ ':' ∧ c ≠ '?' ∧ c ≠ '#' ∧ c ≠ ';')
    (hq2 : q.head? ≠ some '/')
    (hsan : sanitizeUrl q = q) (hdsan : sanitizeScheme ds = ds) :
    urlparse q ds = .ok ⟨ds, [], q, [], [], []⟩ := by
  have hcolon : ¬ ':' ∈ q := fun h => (hc _ h).1 rfl
  have hqm : ¬ '?' ∈ q := fun h => (hc _ h).2.1 rfl
  have hhash : ¬ '#' ∈ q := fun h => (hc _ h).2.2.1 rfl
  have hsemi : ¬ ';' ∈ q := fun h => (hc _ h).2.2.2 rfl
  have hss : splitScheme q = ([], q) := by
    unfold splitScheme
    rw [if_neg hcolon]
  have hds : listStarts (str "//") q = false :=
    listStarts_slash_false _ _ rfl hq2
  have ht1 : splitTail '#' q = (q, []) := splitTail_not_mem _ _ hhash
  have ht2 : splitTail '?' q = (q, []) := splitTail_not_mem _ _ hqm
  unfold urlparse urlsplit
  simp only [hsan, hdsan, hss, hds, ht1, ht2]
  simp [hsemi, ht1, ht2]

/-- `urlunparse` of scheme + authority + absolute path and no params,
query or fragment: plain concatenation. -/
theorem urlunparse_host_path (scheme nl p2 : Str) (hnl : nl ≠ [])
    (hp : listStarts (str "/") p2 = true) (hsne : scheme ≠ []) :
    urlunparse ⟨scheme, nl, p2, [], [], []⟩ =
      scheme ++ ':' :: '/' :: '/' :: (nl ++ p2) := by
  have hsl : str "//" = ['/', '/'] := rfl
  simp [urlunparse, urlunsplit, hnl, hp, hsne, hsl, List.append_assoc]

/-- `urljoin` of a plain URI path reference onto an
`https://`-or-`http://` authority-only base: the resolved path is appended
after a single separator. -/
theorem urljoin_scheme_host_plain (scheme nl q : Str)
    (hsch : scheme = str "https" ∨ scheme = str "http")
    (hnl : nl ≠ [])
    (hnet : netlocOk nl)
    (hq : plainUriRef q) :
    urljoin (scheme ++ str "://" ++ nl) q =
      .ok (scheme ++ str "://" ++ nl ++ '/' :: q) := by
  obtain ⟨hq1, hq2, hq3, hq4, hq5, hq6, hq7⟩ := hq
  have hss : splitScheme (scheme ++ str "://" ++ nl) =
      (scheme, '/' :: '/' :: nl) := by
    rcases hsch with rfl | rfl <;> rfl
  have hsne : scheme ≠ [] := by rcases hsch with rfl | rfl <;> decide
  have hrel : scheme ∈ uses_relative := by rcases hsch with rfl | rfl <;> decide
  have hnetm : scheme ∈ uses_netloc := by rcases hsch with rfl | rfl <;> decide
  have hls : listStarts (str "//") ('/' :: '/' :: nl) = true := rfl
  have htw : nl.takeWhile (fun c => ¬ (c = '/' ∨ c = '?' ∨ c = '#')) = nl :=
    takeWhile_eq_self_of_all _ _ (fun c hc => by
      obtain ⟨h1, h2, h3, _, _⟩ := hnet c hc
      simp [h1, h2, h3])
  have hsn : splitNetloc nl = (nl, []) := by
    unfold splitNetloc
    rw [htw]
    simp
  have hlb : ¬ '[' ∈ nl := fun h => (hnet _ h).2.2.2.1 rfl
  have hrb : ¬ ']' ∈ nl := fun h => (hnet _ h).2.2.2.2.1 rfl
  have hbsan : sanitizeUrl (scheme ++ str "://" ++ nl) =
      scheme ++ str "://" ++ nl := by
    unfold sanitizeUrl
    have h1 : (scheme ++ str "://" ++ nl).dropWhile isC0OrSpace =
        scheme ++ str "://" ++ nl := by
      rcases hsch with rfl | rfl <;>
        exact List.dropWhile_cons_of_neg (by decide)
    rw [h1]
    refine List.filter_eq_self.mpr ?_
    intro c hcm
    rcases List.mem_append.mp hcm with h | h
    · rcases List.mem_append.mp h with h2 | h2
      · rcases hsch with rfl | rfl
        · have := (by decide :
            ∀ c ∈ str "https", isUnsafeUrlByte c = false) c h2
          simp [this]
        · have := (by decide :
            ∀ c ∈ str "http", isUnsafeUrlByte c = false) c h2
          simp [this]
      · have := (by decide :
          ∀ c ∈ str "://", isUnsafeUrlByte c = false) c h2
        simp [this]
    · simp [(hnet c h).2.2.2.2.2]
  have hsplitb : urlsplit (scheme ++ str "://" ++ nl) (str "") =
      .ok (scheme, nl, [], [], []) := by
    unfold urlsplit
    simp only [hbsan, hss, hls, if_true, List.drop_succ_cons, List.drop_zero,
      hsn]
    rw [if_neg hsne]
    rw [if_neg (by simp [hlb, hrb])]
    rfl
  have hbp : urlparse (scheme ++ str "://" ++ nl) (str "") =
      .ok ⟨scheme, nl, [], [], [], []⟩ := by
    unfold urlparse
    rw [hsplitb]
    simp
  have hdsan : sanitizeScheme scheme = scheme := by
    rcases hsch with rfl | rfl <;> rfl
  have hrsan : sanitizeUrl q = q := by
    unfold sanitizeUrl
    have h1 : q.dropWhile isC0OrSpace = q := by
      cases q with
      | nil => rfl
      | cons c cs =>
        exact List.dropWhile_cons_of_neg (by simp [hq6 c (by simp)])
    rw [h1]
    exact List.filter_eq_self.mpr (fun c hc => by simp [hq7 c hc])
  have hrp : urlparse q scheme = .ok ⟨scheme, [], q, [], [], []⟩ :=
    urlparse_plain_ref q scheme hq1 hq3 hq2 hrsan hdsan
  have hbne : scheme ++ str "://" ++ nl ≠ [] := by
    intro h
    rcases List.append_eq_nil.mp h with ⟨h1, _⟩
    rcases List.append_eq_nil.mp h1 with ⟨_, h3⟩
    exact absurd h3 (by decide)
  have e1 : filterInterior ([] :: splitSlash q) = [] :: splitSlash q := by
    rw [filterInterior, interiorFilter_id _ hq5]
  have e2 : resolveSegs ([] :: splitSlash q) = [] :: splitSlash q := by
    unfold resolveSegs
    rw [List.foldl_cons,
      show resolveStep [] [] = [[]] by rfl,
      foldl_resolveStep_no_dots _ hq4 [[]]]
    rfl
  have e3 : ¬ (([] :: splitSlash q).getLast? = some ['.', '.'] ∨
      ([] :: splitSlash q).getLast? = some ['.']) := by
    intro hor
    rcases hor with hlast | hlast <;>
      rcases List.mem_cons.mp (List.mem_of_getLast?_eq_some hlast) with h | h
    · exact absurd h.symm (by simp)
    · exact (hq4 _ h).2 rfl
    · exact absurd h.symm (by simp)
    · exact (hq4 _ h).1 rfl
  have e4 : joinSlash ([] :: splitSlash q) = '/' :: q := by
    cases h : splitSlash q with
    | nil => exact absurd h (splitSlash_ne_nil q)
    | cons a t =>
      have hj := joinSlash_splitSlash q
      rw [h] at hj
      rw [joinSlash, hj]
      rfl
  have hnsl : listStarts (str "/") q = false :=
    listStarts_slash_false _ _ rfl hq2
  unfold urljoin
  rw [if_neg hbne, if_neg hq1]
  simp only [hbp, hrp]
  rw [if_neg (by simp [hrel])]
  rw [if_neg (by simp)]
  simp only [if_pos hnetm]
  rw [if_neg (by simp [hq1])]
  rw [show splitSlash ([] : Str) = [[]] from rfl]
  rw [if_pos (show ([[]] : List Str).getLast? = some ([] : Str) from rfl)]
  rw [hnsl]
  simp only [Bool.false_eq_true, if_false]
  rw [show ([[]] : List Str) ++ splitSlash q = [] :: splitSlash q from rfl]
  rw [e1, e2, if_neg e3, e4]
  rw [if_neg (show ¬ ('/' :: q) = [] by simp)]
  rw [urlunparse_host_path scheme nl ('/' :: q) hnl rfl hsne]
  rw [show str "://" = [':', '/', '/'] from rfl]
  simp [List.append_assoc]

/-- C5 counterexample: the URL path is the percent-encoded normalized name,
not the normalized name itself — for `"a b.txt"` the code produces
`.../a%20b.txt`, never `.../a b.txt`. -/
theorem url_percent_encodes_key :
    QingStorStorage.url testStore (str "a b.txt") =
      .ok (str "https://test.test.qingstor.com/a%20b.txt") ∧
    str "https://test.test.qingstor.com/a%20b.txt" ≠
      str "https://test.test.qingstor.com/a b.txt" := ⟨rfl, by decide⟩

/-- C5 as amended: for a name within the root whose encoded key and
configured host parts are well formed, `url` is pure string construction —
no remote state is consulted — and returns `scheme://bucket_name.zone.host/`
followed by the URI-encoded normalized name, with `https` when
`secure_url` is set and `http` otherwise. -/
theorem url_builds_public_url (st : QingStorStorage) (name k : Str)
    (hn : _normalize_name st.location (_clean_name name) = .ok k)
    (hq : plainUriRef (filepath_to_uri k))
    (hb : netlocOk st.bucket_name ∧ netlocOk st.zone ∧ netlocOk st.host) :
    QingStorStorage.url st name =
      .ok ((if st.secure_url then str "https://" else str "http://") ++
        st.bucket_name ++ ['.'] ++ st.zone ++ ['.'] ++ st.host ++
        '/' :: filepath_to_uri k) := by
  have hnet : netlocOk (st.bucket_name ++ ['.'] ++ st.zone ++ ['.'] ++ st.host) := by
    intro c hcm
    simp only [List.append_assoc, List.mem_append, List.mem_cons,
      List.not_mem_nil, or_false] at hcm
    rcases hcm with h | h | h | h | h
    · exact hb.1 c h
    · subst h; decide
    · exact hb.2.1 c h
    · subst h; decide
    · exact hb.2.2 c h
  have hnl : st.bucket_name ++ ['.'] ++ st.zone ++ ['.'] ++ st.host ≠ [] := by
    intro h
    rcases List.append_eq_nil.mp h with ⟨h1, _⟩
    rcases List.append_eq_nil.mp h1 with ⟨_, h3⟩
    exact absurd h3 (by decide)
  unfold QingStorStorage.url
  simp only [hn]
  by_cases hsec : st.secure_url = true
  · simp only [hsec, if_true]
    rw [show str "https://" = str "https" ++ str "://" from rfl]
    have := urljoin_scheme_host_plain (str "https")
      (st.bucket_name ++ ['.'] ++ st.zone ++ ['.'] ++ st.host)
      (filepath_to_uri k) (Or.inl rfl) hnl hnet hq
    simp only [List.append_assoc] at this ⊢
    rw [this]
  · rw [show st.secure_url = false from by
      cases h : st.secure_url
      · rfl
      · exact absurd h hsec]
    simp only [Bool.false_eq_true, if_false]
    rw [show str "http://" = str "http" ++ str "://" from rfl]
    have := urljoin_scheme_host_plain (str "http")
      (st.bucket_name ++ ['.'] ++ st.zone ++ ['.'] ++ st.host)
      (filepath_to_uri k) (Or.inr rfl) hnl hnet hq
    simp only [List.append_assoc] at this ⊢
    rw [this]

/-- Witness for C5's amended theorem, on the repository's own URL test
case: `url("test.txt")` against bucket `test`, zone `test`, secure URLs. -/
theorem url_builds_public_url_witness :
    QingStorStorage.url testStore (str "test.txt") =
      .ok ((if testStore.secure_url then str "https://" else str "http://") ++
        testStore.bucket_name ++ ['.'] ++ testStore.zone ++ ['.'] ++
        testStore.host ++ '/' :: filepath_to_uri (str "test.txt")) :=
  url_builds_public_url testStore (str "test.txt") (str "test.txt") rfl
    (by decide) (by decide)

/-- An in-memory `six.BytesIO` buffer: contents, cursor, released flag. -/
structure Buffer where
  data : Bytes
  pos : Nat
  closed : Bool
  deriving DecidableEq, Repr

/-- A fresh empty `BytesIO()`. -/
def Buffer.empty : Buffer := ⟨[], 0, false⟩

/-- `BytesIO.write`: overwrite at the cursor (zero-padding any gap) and
advance it; raises `ValueError` on a released buffer. -/
def Buffer.write (b : Buffer) (bs : Bytes) : Except PyErr Buffer :=
  if b.closed then .error .valueError
  else
    .ok { data := b.data.take b.pos ++ List.replicate (b.pos - b.data.length) 0
            ++ bs ++ b.data.drop (b.pos + bs.length),
          pos := b.pos + bs.length, closed := false }

/-- `BytesIO.read`: the bytes from the cursor (all of them, or at most
`n`), advancing the cursor; raises `ValueError` on a released buffer. -/
def Buffer.read (b : Buffer) (n : Option Nat) : Except PyErr (Bytes × Buffer) :=
  if b.closed then .error .valueError
  else
    let out := match n with
      | none => b.data.drop b.pos
      | some k => (b.data.drop b.pos).take k
    .ok (out, { b with pos := b.pos + out.length })

/-- `BytesIO.seek(k)` (`SEEK_SET`); raises `ValueError` when released. -/
def Buffer.seek (b : Buffer) (k : Nat) : Except PyErr Buffer :=
  if b.closed then .error .valueError else .ok { b with pos := k }

/-- `BytesIO.seek(0, SEEK_END)`; raises `ValueError` when released. -/
def Buffer.seekEnd (b : Buffer) : Except PyErr Buffer :=
  if b.closed then .error .valueError
  else .ok { b with pos := b.data.length }

/-- `BytesIO.tell()`; raises `ValueError` when released. -/
def Buffer.tell (b : Buffer) : Except PyErr Nat :=
  if b.closed then .error .valueError else .ok b.pos

/-- `BytesIO.close()`: release the buffer (idempotent in Python; later I/O
raises `ValueError`). -/
def Buffer.close (b : Buffer) : Buffer := { b with closed := true }

/-- A Python value written to or read from a handle: raw bytes (binary
mode) or text. -/
inductive Content where
  | bytes (bs : Bytes)
  | text (s : Str)
  deriving DecidableEq, Repr

/-- `force_bytes`: text is UTF-8 encoded, bytes pass through. -/
def force_bytes : Content → Bytes
  | .bytes bs => bs
  | .text s => utf8Encode s

/-- `force_text`: strict UTF-8 decoding, raising on invalid input. -/
def force_text (bs : Bytes) : Except PyErr Str :=
  match utf8Decode bs with
  | some s => .ok s
  | none => .error .decodeError

/-- The state of a `QingStorFile` handle (qingstor.py lines 25-32):
`file` is the `BytesIO` buffer, `_size` the memoized size attribute
(absent until first assigned). -/
structure QingStorFile where
  _name : Str
  _mode : Str
  file : Buffer
  _is_dirty : Bool
  _is_read : Bool
  _size : Option Nat
  deriving DecidableEq, Repr

/-- `QingStorFile.__init__` with correctly bound arguments, as the
repository's tests construct handles directly: an empty buffer and clean
flags. -/
def QingStorFile.init (name : Str) (mode : Str) : QingStorFile :=
  ⟨name, mode, Buffer.empty, false, false, none⟩

/-- `QingStorFile.write` (lines 60-66): raise `AttributeError` unless the
mode grants write access; otherwise write `force_bytes(content)` at the
cursor and set `_is_dirty` and `_is_read`.  Returns (raised exception,
object state after the call). -/
def QingStorFile.write (f : QingStorFile) (content : Content) :
    Option PyErr × QingStorFile :=
  if 'w' ∈ f._mode then
    match f.file.write (force_bytes content) with
    | .error e => (some e, f)
    | .ok buf =>
      (none, { f with file := buf, _is_dirty := true, _is_read := true })
  else (some .attributeError, f)

/-- `QingStorFile.read` (lines 45-58): on the first read, fetch the whole
remote object at the raw handle name (`storage._read` does not normalize)
and replace the buffer with it; then read from the buffer, returning bytes
in binary mode and UTF-8 decoded text otherwise.  Returns (outcome, object
state after the call). -/
def QingStorFile.read (f : QingStorFile) (num_bytes : Option Nat)
    (remote : Remote) : Except PyErr Content × QingStorFile :=
  match
    (if f._is_read then Except.ok f
     else
       match get_object remote f._name with
       | some content =>
         Except.ok { f with file := ⟨content, 0, false⟩, _is_read := true }
       | none => (Except.error PyErr.notFound : Except PyErr QingStorFile)) with
  | .error e => (.error e, f)
  | .ok f1 =>
    match f1.file.read num_bytes with
    | .error e => (.error e, f1)
    | .ok (data, buf) =>
      let f2 := { f1 with file := buf }
      if 'b' ∈ f2._mode then (.ok (.bytes data), f2)
      else
        match force_text data with
        | .ok s => (.ok (.text s), f2)
        | .error e => (.error e, f2)

/-- `QingStorFile.close` (lines 68-72): when `_is_dirty`, seek the buffer
to 0 and save it through the storage (which normalizes the name and puts
the buffer bytes from the cursor on); then release the buffer.
`_is_dirty` is never reset.  Returns (raised exception, object state,
remote puts issued). -/
def QingStorFile.close (f : QingStorFile) (st : QingStorStorage) :
    Option PyErr × QingStorFile × List RemoteOp :=
  if f._is_dirty then
    match f.file.seek 0 with
    | .error e => (some e, f, [])
    | .ok buf =>
      let f1 := { f with file := buf }
      match _save st f1._name (buf.data.drop buf.pos) with
      | .error e => (some e, f1, [])
      | .ok (_, ops) => (none, { f1 with file := f1.file.close }, ops)
  else (none, { f with file := f.file.close }, [])

/-- The `size` property (lines 34-43): when the buffer has been touched
(`_is_dirty or _is_read`), measure the live buffer by seeking to the end
and restoring the cursor, memoizing the result in `_size`; otherwise fall
back (once) to `storage.size` on the raw name.  Returns (outcome, object
state after the call). -/
def QingStorFile.size (f : QingStorFile) (remote : Remote) :
    Except PyErr Nat × QingStorFile :=
  if f._is_dirty || f._is_read then
    match f.file.tell with
    | .error e => (.error e, f)
    | .ok old_file_position =>
      match f.file.seekEnd with
      | .error e => (.error e, f)
      | .ok buf1 =>
        match buf1.tell with
        | .error e => (.error e, { f with file := buf1 })
        | .ok sz =>
          match buf1.seek old_file_position with
          | .error e => (.error e, { f with file := buf1, _size := some sz })
          | .ok buf2 => (.ok sz, { f with file := buf2, _size := some sz })
  else
    match f._size with
    | some sz => (.ok sz, f)
    | none =>
      match QingStorStorage.size remote f._name with
      | .error e => (.error e, f)
      | .ok sz => (.ok sz, { f with _size := some sz })

/-- C7: on a handle whose mode lacks write permission, `write` raises
`AttributeError` (the spec's `ReadOnlyModeError`) for every content, and
the object — buffer, `_is_dirty`, `_is_read` — is returned exactly as it
was: the raise precedes any mutation. -/
theorem write_read_only (f : QingStorFile) (content : Content)
    (h : ¬ 'w' ∈ f._mode) :
    QingStorFile.write f content = (some .attributeError, f) := by
  unfold QingStorFile.write
  rw [if_neg h]

/-- Witness for C7: the repository's own test case, a `'rb'` handle. -/
theorem write_read_only_witness :
    QingStorFile.write (QingStorFile.init (str "foo") (str "rb"))
        (.text (str "fail")) =
      (some .attributeError, QingStorFile.init (str "foo") (str "rb")) :=
  write_read_only (QingStorFile.init (str "foo") (str "rb"))
    (.text (str "fail")) (by decide)

/-- C9: a handle that was never written (`_is_dirty = false`) can be
closed twice: neither call raises, and neither issues a remote save
(releasing a `BytesIO` is idempotent in Python). -/
theorem double_close_clean (f : QingStorFile) (st : QingStorStorage)
    (h : f._is_dirty = false) :
    ∃ g, QingStorFile.close f st = (none, g, []) ∧
      QingStorFile.close g st = (none, { g with file := g.file.close }, []) := by
  refine ⟨{ f with file := f.file.close }, ?_, ?_⟩ <;>
    simp [QingStorFile.close, h]

/-- Witness for C9: a fresh read-only handle closed twice. -/
theorem double_close_clean_witness :
    ∃ g, QingStorFile.close (QingStorFile.init (str "foo") (str "rb"))
        testStore = (none, g, []) ∧
      QingStorFile.close g testStore =
        (none, { g with file := g.file.close }, []) :=
  double_close_clean (QingStorFile.init (str "foo") (str "rb")) testStore
    (by decide)

/-- C8: when the buffer has been touched (`_is_dirty` or `_is_read`) and
not yet released, the `size` property reports the total byte length of the
in-memory buffer, leaves the buffer — contents and cursor — unchanged, and
only memoizes `_size`; in particular, writing any content to a fresh
writable handle makes `size` equal the written byte length before close. -/
theorem size_measures_live_buffer :
    (∀ (f : QingStorFile) (remote : Remote),
      (f._is_dirty || f._is_read) = true → f.file.closed = false →
      QingStorFile.size f remote =
        (.ok f.file.data.length, { f with _size := some f.file.data.length })) ∧
    (∀ (name mode : Str) (content : Content) (remote : Remote),
      'w' ∈ mode →
      (QingStorFile.size
        ((QingStorFile.write (QingStorFile.init name mode) content).2)
        remote).1 = .ok (force_bytes content).length) := by
  constructor
  · intro f remote htouched hopen
    obtain ⟨n, m, ⟨d, p, c⟩, dy, rd, sz⟩ := f
    simp only at hopen htouched
    subst hopen
    unfold QingStorFile.size
    rw [if_pos htouched]
    simp [Buffer.tell, Buffer.seekEnd, Buffer.seek]
  · intro name mode content remote hw
    simp [QingStorFile.write, QingStorFile.init, Buffer.empty, Buffer.write,
      hw, QingStorFile.size, Buffer.tell, Buffer.seekEnd, Buffer.seek]

/-- Witness for C8: a fresh `'wrb'` handle (the repository's test mode)
with 15 bytes written reports size 15. -/
theorem size_measures_live_buffer_witness :
    (QingStorFile.size
      ((QingStorFile.write
        (QingStorFile.init (str "f.txt") (str "wrb"))
        (.bytes [72, 101, 108, 108, 111, 44, 81, 105, 110, 103, 83, 116,
          111, 114, 33])).2) []).1 = .ok 15 :=
  size_measures_live_buffer.2 (str "f.txt") (str "wrb")
    (.bytes [72, 101, 108, 108, 111, 44, 81, 105, 110, 103, 83, 116, 111,
      114, 33]) [] (by decide)

/-- C10: `close` never resets `_is_dirty`.  A successful dirty close saves
once and releases the buffer but leaves `_is_dirty = true`, so a second
`close` takes the dirty branch again, fails with `ValueError` when seeking
the released buffer, and issues no further remote put: the double-close
tolerance holds only for handles that were never written. -/
theorem close_never_resets_dirty (f : QingStorFile) (st : QingStorStorage)
    (hdirty : f._is_dirty = true) (hopen : f.file.closed = false)
    (key : Str)
    (hnorm : _normalize_name st.location (_clean_name f._name) = .ok key) :
    ∃ g, QingStorFile.close f st =
        (none, g, [RemoteOp.put key f.file.data]) ∧
      g._is_dirty = true ∧
      QingStorFile.close g st = (some .valueError, g, []) := by
  refine ⟨{ f with file := ⟨f.file.data, 0, true⟩ }, ?_, ?_, ?_⟩
  · unfold QingStorFile.close
    simp [hdirty, Buffer.seek, hopen, _save, _put_file, hnorm, Buffer.close]
  · simp [hdirty]
  · unfold QingStorFile.close
    simp [hdirty, Buffer.seek]

/-- Witness for C10: a written `'wrb'` handle on `"f.txt"`, closed twice
against the test configuration. -/
theorem close_never_resets_dirty_witness :
    ∃ g, QingStorFile.close
        ((QingStorFile.write (QingStorFile.init (str "f.txt") (str "wrb"))
          (.bytes [104])).2) testStore =
        (none, g,
          [RemoteOp.put (str "f.txt")
            ((QingStorFile.write (QingStorFile.init (str "f.txt") (str "wrb"))
              (.bytes [104])).2).file.data]) ∧
      g._is_dirty = true ∧
      QingStorFile.close g testStore = (some .valueError, g, []) :=
  close_never_resets_dirty
    ((QingStorFile.write (QingStorFile.init (str "f.txt") (str "wrb"))
      (.bytes [104])).2) testStore (by decide) (by decide) (str "f.txt")
    rfl

/-- Putting a key makes `get_object` on that key return the new body. -/
theorem get_object_put_object (remote : Remote) (key : Str) (body : Bytes) :
    get_object (put_object remote key body) key = some body := by
  induction remote with
  | nil => simp [put_object, get_object]
  | cons kv rest ih =>
    obtain ⟨k, v⟩ := kv
    unfold put_object
    by_cases hk : k = key
    · rw [if_pos hk]
      unfold get_object
      rw [if_pos hk]
    · rw [if_neg hk]
      unfold get_object
      rw [if_neg hk]
      exact ih

/-- The write-then-read pipeline of claim C3: open a fresh handle on
`name` in write mode, write `content`, close it (flushing the buffer to
the remote store), then open a fresh handle on the same `name` in read
mode and read fully. -/
def roundTrip (st : QingStorStorage) (name : Str) (content : Content)
    (wmode rmode : Str) (remote : Remote) : Except PyErr Content :=
  match QingStorFile.write (QingStorFile.init name wmode) content with
  | (some e, _) => .error e
  | (none, f1) =>
    match QingStorFile.close f1 st with
    | (some e, _, _) => .error e
    | (none, _, ops) =>
      (QingStorFile.read (QingStorFile.init name rmode) none
        (applyOps remote ops)).1

/-- The read mode agrees with the written content's kind: binary mode for
bytes, text mode for text. -/
def modeMatches : Content → Str → Prop
  | .bytes _, rmode => 'b' ∈ rmode
  | .text _, rmode => ¬ 'b' ∈ rmode

instance (c : Content) (m : Str) : Decidable (modeMatches c m) := by
  cases c <;> unfold modeMatches <;> infer_instance

/-- C3 counterexample: the round trip fails for the within-root name
`"./a.txt"` — `close` saves under the normalized key `"a.txt"`, but
`read` fetches the raw name `"./a.txt"`, which the store does not have. -/
theorem roundtrip_fails_unnormalized_name :
    roundTrip testStore (str "./a.txt") (.bytes [104]) (str "wb") (str "rb")
        [] = .error .notFound ∧
    staysWithinRoot testStore.location (str "./a.txt") = true ∧
    (Except.error PyErr.notFound : Except PyErr Content) ≠
      .ok (.bytes [104]) := ⟨rfl, by decide, by decide⟩

/-- C3 as amended: the write-then-read round trip returns exactly the
written content — bytes in binary mode, identically UTF-8 decoded text in
text mode — for names that the store keeps unchanged, i.e. whose cleaned,
normalized key equals the name itself (`read` fetches the raw name while
`close` saves under the normalized key, so the two must coincide). -/
theorem roundTrip_stages (st : QingStorStorage) (name : Str)
    (content : Content) (wmode rmode : Str) (remote : Remote)
    (hw : 'w' ∈ wmode)
    (hkey : _normalize_name st.location (_clean_name name) = .ok name) :
    roundTrip st name content wmode rmode remote =
      (if 'b' ∈ rmode then Except.ok (Content.bytes (force_bytes content))
       else
         match force_text (force_bytes content) with
         | .ok s => .ok (.text s)
         | .error e => .error e) := by
  have h1 : QingStorFile.write (QingStorFile.init name wmode) content =
      (none, ⟨name, wmode, ⟨force_bytes content,
        (force_bytes content).length, false⟩, true, true, none⟩) := by
    unfold QingStorFile.write QingStorFile.init Buffer.empty Buffer.write
    rw [if_pos hw]
    simp
  have h2 : QingStorFile.close
      (⟨name, wmode, ⟨force_bytes content, (force_bytes content).length,
        false⟩, true, true, none⟩ : QingStorFile) st =
      (none, ⟨name, wmode, ⟨force_bytes content, 0, true⟩, true, true, none⟩,
        [RemoteOp.put name (force_bytes content)]) := by
    unfold QingStorFile.close Buffer.seek Buffer.close _save _put_file
    simp [hkey]
  have h3 : get_object (applyOps remote [RemoteOp.put name
      (force_bytes content)]) name = some (force_bytes content) := by
    simp [applyOps, get_object_put_object]
  unfold roundTrip
  simp only [h1]
  simp only [h2]
  unfold QingStorFile.read QingStorFile.init
  simp only [h3]
  simp only [Buffer.read]
  by_cases hb : 'b' ∈ rmode
  · simp [hb]
  · simp [hb]
    cases force_text (force_bytes content) <;> rfl

theorem roundtrip_canonical (st : QingStorStorage) (name : Str)
    (content : Content) (wmode rmode : Str) (remote : Remote)
    (hw : 'w' ∈ wmode)
    (hkey : _normalize_name st.location (_clean_name name) = .ok name)
    (hm : modeMatches content rmode) :
    roundTrip st name content wmode rmode remote = .ok content := by
  rw [roundTrip_stages st name content wmode rmode remote hw hkey]
  cases content with
  | bytes bs =>
    have hb : 'b' ∈ rmode := hm
    rw [if_pos hb]
    rfl
  | text s =>
    have hb : ¬ 'b' ∈ rmode := hm
    rw [if_neg hb]
    show (match force_text (utf8Encode s) with
      | .ok u => Except.ok (Content.text u)
      | .error e => .error e) = .ok (.text s)
    rw [show force_text (utf8Encode s) = .ok s by
      unfold force_text
      rw [utf8Decode_utf8Encode]]

/-- Witness for C3's amended theorem: binary and text round trips on the
canonical name `"a/b.txt"` against the test configuration. -/
theorem roundtrip_canonical_witness :
    roundTrip testStore (str "a/b.txt") (.bytes [104, 105]) (str "wb")
        (str "rb") [] = .ok (.bytes [104, 105]) ∧
    roundTrip testStore (str "a/b.txt") (.text (str "hi")) (str "w")
        (str "r") [] = .ok (.text (str "hi")) :=
  ⟨roundtrip_canonical testStore (str "a/b.txt") (.bytes [104, 105])
      (str "wb") (str "rb") [] (by decide) rfl (by decide),
    roundtrip_canonical testStore (str "a/b.txt") (.text (str "hi"))
      (str "w") (str "r") [] (by decide) rfl (by decide)⟩
